import Mathlib

/-!
Verification of the lithops work-distribution core: the k8s master's
RangeAllocator (get_range in entry_point.py), the PartitionPlanner
(calculate_executions), the FanoutScheduler message handler
(callback_run_jobs), and the client-side wait engine (wait.py).
Each definition is a shallow embedding of the corresponding Python
function; integers are modelled as Nat (Python ints in these code paths
are nonnegative counts and indices).
-/

namespace Lithops

/-- Response of the get-range HTTP endpoint: either the "-1" sentinel
string or a "start-end" range string (modelled structurally). -/
inductive RangeResp where
  | sentinel : RangeResp
  | range : Nat → Nat → RangeResp
deriving DecidableEq, Repr

/-- The JOB_INDEXES module-level dict of entry_point.py: a partial map
from job key to the stored allocation cursor. -/
def JobIndexes : Type := String → Option Nat

/-- The initial state of JOB_INDEXES (empty dict). -/
def emptyJobIndexes : JobIndexes := fun _ => none

/-- Embeds get_range (entry_point.py lines 46-57).  Reads the stored
cursor (0 when the key is unseen), computes
range_end = min(range_start + chunksize, total_calls), stores range_end
back, and answers the sentinel when range_start == total_calls, else the
half-open range [range_start, range_end). -/
def get_range (jobkey : String) (total_calls chunksize : Nat)
    (jobIndexes : JobIndexes) : RangeResp × JobIndexes :=
  let range_start : Nat :=
    match jobIndexes jobkey with
    | none => 0
    | some v => v
  let range_end : Nat := min (range_start + chunksize) total_calls
  let jobIndexes2 : JobIndexes :=
    fun k => if k = jobkey then some range_end else jobIndexes k
  let range : RangeResp :=
    if range_start = total_calls then RangeResp.sentinel
    else RangeResp.range range_start range_end
  (range, jobIndexes2)

/-- The effective cursor of a job key: the stored value, or 0 when the
key is unseen (mirrors line 49 of entry_point.py). -/
def cursorOf (ji : JobIndexes) (k : String) : Nat := (ji k).getD 0

/-- State of JOB_INDEXES after n sequential get_range requests for the
job key "job" with fixed total_calls and chunksize, from a fresh dict. -/
def allocState (total chunk : Nat) : Nat → JobIndexes
  | 0 => emptyJobIndexes
  | n + 1 => (get_range "job" total chunk (allocState total chunk n)).2

/-- Response of the (n+1)-th sequential get_range request for "job". -/
def allocResp (total chunk n : Nat) : RangeResp :=
  (get_range "job" total chunk (allocState total chunk n)).1

/-- Responses of a sequence of get_range requests for one job key with a
fixed total_calls, one request per entry of the chunksize list. -/
def sentinelRun (k : String) (total : Nat) : JobIndexes → List Nat → List RangeResp
  | _, [] => []
  | ji, c :: cs =>
    let r := get_range k total c ji
    r.1 :: sentinelRun k total r.2 cs

/-- Stored cursor values after each request of a sequence of get_range
requests for "job" with a fixed total_calls, one per chunksize entry. -/
def cursorSteps (total : Nat) : JobIndexes → List Nat → List Nat
  | _, [] => []
  | ji, c :: cs =>
    let ji2 := (get_range "job" total c ji).2
    cursorOf ji2 "job" :: cursorSteps total ji2 cs

/-- A JOB_INDEXES state holding cursor 5 for job key "j"; reached from a
fresh dict by one get_range request with total_calls 5, chunksize 5. -/
def jiAfterFirst : JobIndexes := (get_range "j" 5 5 emptyJobIndexes).2

/-- The state after a further get_range request with total_calls 3 and
chunksize 1 on the same key. -/
def jiAfterSecond : JobIndexes := (get_range "j" 3 1 jiAfterFirst).2

/-- A JOB_INDEXES state storing cursor 5 for job key "j". -/
def jiCursor5 : JobIndexes := fun k => if k = "j" then some 5 else none

/-- Embeds calculate_executions (entry_point.py lines 140-155):
base share pod_cpus * (total // cluster cpus), plus the remainder
distribution over the pod's inclusive CPU-index range. -/
def calculate_executions (num_cpus_cluster pod_cpus : Nat)
    (range_ids_pod : Nat × Nat) (total_functions : Nat) : Nat × Nat :=
  let base_executions := total_functions / num_cpus_cluster
  let remaining_executions := total_functions % num_cpus_cluster
  let pod_executions := pod_cpus * base_executions
  if range_ids_pod.1 ≤ remaining_executions ∧ remaining_executions ≤ range_ids_pod.2 then
    (pod_executions + (remaining_executions - range_ids_pod.1), base_executions)
  else if range_ids_pod.1 < remaining_executions then
    (pod_executions + pod_cpus, base_executions)
  else
    (pod_executions, base_executions)

/-- Sum of the pod_executions component of calculate_executions over a
cluster described by the list of pod sizes: the pod of size s starting
at CPU index a owns the inclusive CPU range [a, a + s - 1], and the next
pod starts at a + s (contiguous partition of the CPU indices). -/
def podExecsSum (num_cpus_cluster total_functions : Nat) : Nat → List Nat → Nat
  | _, [] => 0
  | a, s :: rest =>
    (calculate_executions num_cpus_cluster s (a, a + s - 1) total_functions).1 +
      podExecsSum num_cpus_cluster total_functions (a + s) rest

/-- Embeds the process-launch prelude of callback_run_jobs
(entry_point.py lines 162-189): the handler returns early (0 processes)
when total_calls <= range_start; otherwise it computes requested_cpus,
pod_cpus and the pod's total executions, and the first wave launches
requested_cpus processes when total_executions == requested_cpus, else
pod_cpus processes. -/
def callback_run_jobs_first_wave
    (num_cpus_cluster range_start range_end total_calls : Nat) : Nat :=
  if range_start < total_calls then
    let requested_cpus :=
      if total_calls - 1 < range_end then total_calls - range_start
      else range_end - range_start + 1
    let pod_cpus := range_end - range_start + 1
    let total_executions :=
      (calculate_executions num_cpus_cluster pod_cpus (range_start, range_end) total_calls).1
    if total_executions = requested_cpus then requested_cpus else pod_cpus
  else 0

/-- Embeds the exception flow of callback_run_jobs (entry_point.py lines
158-208): json.loads(body) and the payload field reads happen before the
try block, so a failure there propagates out of the handler; the
scheduling body (lines 168-205) is wrapped in try/except-pass, so a
failure there is suppressed and the handler returns normally. -/
def callback_decode_then_try (decode_payload : Except String Nat)
    (try_body : Nat → Except String Unit) : Except String Unit :=
  match decode_payload with
  | Except.error e => Except.error e
  | Except.ok p =>
    match try_body p with
    | Except.error _ => Except.ok ()
    | Except.ok _ => Except.ok ()

/-- A future handle as seen by wait.py: the two independent booleans it
reads (status available / result available). -/
structure Future where
  ready : Bool
  done : Bool
deriving DecidableEq, Repr

/-- The readiness predicate of the spec: done when download_results,
ready OR done otherwise. -/
def readiness (download_results : Bool) (f : Future) : Bool :=
  if download_results then f.done else f.ready || f.done

/-- Python-level return value of wait: None, or the (done, notDone)
pair. -/
inductive PyResult where
  | noneVal : PyResult
  | pair : List Future → List Future → PyResult
deriving DecidableEq, Repr

def ALL_COMPLETED : Nat := 1

def ANY_COMPLETED : Nat := 2

def ALWAYS : Nat := 3

/-- Embeds _all_done (wait.py lines 226-233). -/
def all_done (fs : List Future) (download_results : Bool) : Bool :=
  if download_results then fs.all (fun f => f.done)
  else fs.all (fun f => f.ready || f.done)

/-- Embeds _any_done (wait.py lines 236-243). -/
def any_done (fs : List Future) (download_results : Bool) : Bool :=
  if download_results then fs.any (fun f => f.done)
  else fs.any (fun f => f.ready || f.done)

/-- The polling loop of wait: while cond holds, apply the pass k (the
combined effect of the _get_job_data calls of that pass, supplied as an
oracle since it performs external I/O and may grow the futures list),
with fuel bounding the number of passes; none models a loop that did not
terminate within the fuel. -/
def pollLoop (cond : List Future → Bool) (step : Nat → List Future → List Future) :
    Nat → Nat → List Future → Option (List Future)
  | 0, _, fs => if cond fs then none else some fs
  | fuel + 1, k, fs =>
    if cond fs then pollLoop cond step fuel (k + 1) (step k fs) else some fs

/-- The fs_done list of wait (wait.py lines 66 and 72, recomputed at
lines 156 and 159): futures whose status or result is available. -/
def fs_done_of (fs : List Future) (download_results : Bool) : List Future :=
  if download_results then fs.filter (fun f => f.done)
  else fs.filter (fun f => f.ready || f.done)

/-- The fs_not_done list computed before the loop (wait.py lines 67 and
73). -/
def fs_not_done_of (fs : List Future) (download_results : Bool) : List Future :=
  if download_results then fs.filter (fun f => !f.done)
  else fs.filter (fun f => !(f.ready || f.done))

/-- The fs_notdone list recomputed after the loop (wait.py lines 157 and
160); the non-download branch is written not ready and not done there. -/
def fs_notdone_final (fs : List Future) (download_results : Bool) : List Future :=
  if download_results then fs.filter (fun f => !f.done)
  else fs.filter (fun f => !f.ready && !f.done)

/-- The polling phase of wait (wait.py lines 104-130): ALL_COMPLETED and
ANY_COMPLETED poll until their condition holds, ALWAYS performs exactly
one pass, and any other policy value runs no pass at all. -/
def runPolicy (fs : List Future) (download_results : Bool) (return_when : Nat)
    (step : Nat → List Future → List Future) (fuel : Nat) : Option (List Future) :=
  if return_when = ALL_COMPLETED then
    pollLoop (fun l => !all_done l download_results) step fuel 0 fs
  else if return_when = ANY_COMPLETED then
    pollLoop (fun l => !any_done l download_results) step fuel 0 fs
  else if return_when = ALWAYS then some (step 0 fs)
  else some fs

/-- Embeds the control skeleton of wait (wait.py lines 34-162): the
empty-input early return of None, the pre-loop partition and its early
return, the polling phase, and the final recomputation of the
(done, notDone) partition.  The mutation performed by each polling pass
is the oracle step; none models a wait call that does not terminate
normally. -/
def wait (fs : List Future) (download_results : Bool) (return_when : Nat)
    (step : Nat → List Future → List Future) (fuel : Nat) : Option PyResult :=
  if fs = [] then some PyResult.noneVal
  else if fs_not_done_of fs download_results = [] then
    some (PyResult.pair (fs_done_of fs download_results)
      (fs_not_done_of fs download_results))
  else
    match runPolicy fs download_results return_when step fuel with
    | none => none
    | some fs2 =>
      some (PyResult.pair (fs_done_of fs2 download_results)
        (fs_notdone_final fs2 download_results))

theorem cursor_step (ji : JobIndexes) (k : String) (total chunk : Nat) :
    cursorOf (get_range k total chunk ji).2 k = min (cursorOf ji k + chunk) total := by
  unfold get_range cursorOf
  cases h : ji k <;> simp [h]

theorem get_range_resp (ji : JobIndexes) (k : String) (total chunk : Nat) :
    (get_range k total chunk ji).1 =
      if cursorOf ji k = total then RangeResp.sentinel
      else RangeResp.range (cursorOf ji k) (min (cursorOf ji k + chunk) total) := by
  unfold get_range cursorOf
  cases h : ji k <;> simp [h]

theorem allocState_cursor (total chunk : Nat) :
    ∀ n, cursorOf (allocState total chunk n) "job" = min (n * chunk) total := by
  intro n
  induction n with
  | zero => simp [allocState, emptyJobIndexes, cursorOf]
  | succ n ih =>
    rw [allocState, cursor_step, ih, Nat.succ_mul]
    generalize n * chunk = m
    omega

theorem lt_ceil_iff (total chunk i : Nat) (hc : 0 < chunk) :
    i < (total + chunk - 1) / chunk ↔ i * chunk < total := by
  have h2 : i < (total + chunk - 1) / chunk ↔ (i + 1) * chunk ≤ total + chunk - 1 := by
    rw [Nat.lt_iff_add_one_le, Nat.le_div_iff_mul_le hc]
  rw [h2, Nat.add_mul, Nat.one_mul]
  generalize i * chunk = m
  omega

/-- C1: for totalCalls > 0 and chunkSize > 0, sequential get_range
requests for one job key return the contiguous, non-overlapping,
half-open ranges starting at 0 whose union is exactly the interval from
0 to totalCalls, followed by the sentinel: with N the ceiling of
totalCalls / chunkSize, request i < N returns the nonempty range from
i * chunkSize to min((i+1) * chunkSize, totalCalls), every request from
N on returns the sentinel, consecutive ranges are contiguous, the ranges
are pairwise disjoint, and their union is exactly the interval. -/
theorem range_exhaustive (total chunk : Nat) (ht : 0 < total) (hc : 0 < chunk) :
    (∀ i, i < (total + chunk - 1) / chunk →
        allocResp total chunk i = RangeResp.range (i * chunk) (min ((i + 1) * chunk) total) ∧
        i * chunk < min ((i + 1) * chunk) total) ∧
    (∀ i, (total + chunk - 1) / chunk ≤ i → allocResp total chunk i = RangeResp.sentinel) ∧
    (∀ i, i + 1 < (total + chunk - 1) / chunk → min ((i + 1) * chunk) total = (i + 1) * chunk) ∧
    (∀ x, x < total ↔ ∃ i, i < (total + chunk - 1) / chunk ∧
        i * chunk ≤ x ∧ x < min ((i + 1) * chunk) total) ∧
    (∀ i j, i < j → min ((i + 1) * chunk) total ≤ j * chunk) := by
  refine ⟨?_, ?_, ?_, ?_, ?_⟩
  · intro i hi
    rw [lt_ceil_iff total chunk i hc] at hi
    have hresp := get_range_resp (allocState total chunk i) "job" total chunk
    rw [allocState_cursor total chunk i] at hresp
    have hmin : min (i * chunk) total = i * chunk := by omega
    rw [hmin] at hresp
    have hmul : i * chunk + chunk = (i + 1) * chunk := by
      rw [Nat.add_mul, Nat.one_mul]
    constructor
    · rw [allocResp, hresp, if_neg (by omega), hmul]
    · have h1 : (i + 1) * chunk = i * chunk + chunk := by
        rw [Nat.add_mul, Nat.one_mul]
      rw [h1]
      generalize i * chunk = m at hi
      omega
  · intro i hi
    have hic : ¬ i * chunk < total := by
      rw [← lt_ceil_iff total chunk i hc]
      omega
    rw [allocResp, get_range_resp, allocState_cursor]
    rw [if_pos (by omega)]
  · intro i h
    rw [lt_ceil_iff total chunk (i + 1) hc] at h
    exact Nat.min_eq_left (Nat.le_of_lt h)
  · intro x
    constructor
    · intro hx
      refine ⟨x / chunk, ?_, Nat.div_mul_le_self x chunk, ?_⟩
      · rw [lt_ceil_iff total chunk _ hc]
        have h1 : x / chunk * chunk ≤ x := Nat.div_mul_le_self x chunk
        omega
      · have h1 : chunk * (x / chunk) + x % chunk = x := Nat.div_add_mod x chunk
        have h2 : x % chunk < chunk := Nat.mod_lt x hc
        have h3 : (x / chunk + 1) * chunk = x / chunk * chunk + chunk := by
          rw [Nat.add_mul, Nat.one_mul]
        have h4 : x / chunk * chunk = chunk * (x / chunk) := Nat.mul_comm _ _
        rw [h3, h4]
        generalize chunk * (x / chunk) = m at h1 ⊢
        omega
    · rintro ⟨i, _, _, h2⟩
      omega
  · intro i j hij
    have h1 : (i + 1) * chunk ≤ j * chunk := Nat.mul_le_mul_right chunk hij
    exact Nat.le_trans (Nat.min_le_left _ _) h1

/-- Witness for range_exhaustive at totalCalls = 10, chunkSize = 3: the
spec example, yielding ranges 0-3, 3-6, 6-9, 9-10 and then the sentinel. -/
theorem range_exhaustive_witness :
    0 < 10 ∧ 0 < 3 ∧
    allocResp 10 3 0 = RangeResp.range 0 3 ∧
    allocResp 10 3 1 = RangeResp.range 3 6 ∧
    allocResp 10 3 2 = RangeResp.range 6 9 ∧
    allocResp 10 3 3 = RangeResp.range 9 10 ∧
    allocResp 10 3 4 = RangeResp.sentinel ∧
    ((∀ i, i < (10 + 3 - 1) / 3 →
        allocResp 10 3 i = RangeResp.range (i * 3) (min ((i + 1) * 3) 10) ∧
        i * 3 < min ((i + 1) * 3) 10) ∧
    (∀ i, (10 + 3 - 1) / 3 ≤ i → allocResp 10 3 i = RangeResp.sentinel) ∧
    (∀ i, i + 1 < (10 + 3 - 1) / 3 → min ((i + 1) * 3) 10 = (i + 1) * 3) ∧
    (∀ x, x < 10 ↔ ∃ i, i < (10 + 3 - 1) / 3 ∧
        i * 3 ≤ x ∧ x < min ((i + 1) * 3) 10) ∧
    (∀ i j, i < j → min ((i + 1) * 3) 10 ≤ j * 3)) :=
  ⟨by decide, by decide, by decide, by decide, by decide, by decide, by decide,
    range_exhaustive 10 3 (by decide) (by decide)⟩

/-- C4: when the stored cursor of a job key equals totalCalls at request
time (a fresh key with totalCalls = 0 included, since a fresh cursor
reads as 0), every request of a subsequent sequence with the same
totalCalls returns the sentinel, never a new range, whatever chunk sizes
the requests carry. -/
theorem sentinel_idempotent (ji : JobIndexes) (k : String) (total : Nat)
    (chunks : List Nat) (h : cursorOf ji k = total) :
    ∀ r ∈ sentinelRun k total ji chunks, r = RangeResp.sentinel := by
  induction chunks generalizing ji with
  | nil => intro r hr; cases hr
  | cons c cs ih =>
    intro r hr
    rw [sentinelRun] at hr
    rcases List.mem_cons.mp hr with h1 | h1
    · rw [h1, get_range_resp, if_pos h]
    · refine ih (get_range k total c ji).2 ?_ r h1
      rw [cursor_step, h]
      omega

/-- Witness for sentinel_idempotent: a fresh job key requested with
totalCalls = 0 answers the sentinel on this and both following
requests. -/
theorem sentinel_idempotent_witness :
    cursorOf emptyJobIndexes "j" = 0 ∧
    ∀ r ∈ sentinelRun "j" 0 emptyJobIndexes [1, 2], r = RangeResp.sentinel :=
  ⟨rfl, sentinel_idempotent emptyJobIndexes "j" 0 [1, 2] rfl⟩

/-- C8 counterexample: the stored cursor is not monotone when requests
carry different totalCalls values.  After a request with totalCalls = 5
and chunkSize = 5 the cursor for "j" is 5; a following request with
totalCalls = 3 and chunkSize = 1 lowers it to 3. -/
theorem cursor_can_decrease :
    cursorOf jiAfterFirst "j" = 5 ∧ cursorOf jiAfterSecond "j" = 3 ∧
    cursorOf jiAfterSecond "j" < cursorOf jiAfterFirst "j" := by
  refine ⟨by decide, by decide, by decide⟩

/-- C8 amended: the cursor written by any single get_range request is
bounded by that request's totalCalls; and across a sequence of requests
for a fresh job key that all carry the same totalCalls, the stored
cursor is monotonically non-decreasing (starting from the effective 0 of
the fresh key) and stays bounded by that totalCalls. -/
theorem cursor_monotone_fixed_total (total : Nat) (chunks : List Nat) :
    (∀ ji : JobIndexes, ∀ k : String, ∀ t c : Nat,
        cursorOf (get_range k t c ji).2 k ≤ t) ∧
    List.Chain (fun a b => a ≤ b) 0 (cursorSteps total emptyJobIndexes chunks) ∧
    ∀ x ∈ cursorSteps total emptyJobIndexes chunks, x ≤ total := by
  have hgen : ∀ (cs : List Nat) (ji : JobIndexes), cursorOf ji "job" ≤ total →
      List.Chain (fun a b => a ≤ b) (cursorOf ji "job") (cursorSteps total ji cs) ∧
      ∀ x ∈ cursorSteps total ji cs, x ≤ total := by
    intro cs
    induction cs with
    | nil => intro ji _; exact ⟨List.Chain.nil, by intro x hx; cases hx⟩
    | cons c cs ih =>
      intro ji hji
      have hstep := cursor_step ji "job" total c
      have hle : cursorOf ji "job" ≤ cursorOf (get_range "job" total c ji).2 "job" := by
        rw [hstep]; omega
      have hbound : cursorOf (get_range "job" total c ji).2 "job" ≤ total := by
        rw [hstep]; omega
      rcases ih (get_range "job" total c ji).2 hbound with ⟨hchain, hmem⟩
      refine ⟨List.Chain.cons hle hchain, ?_⟩
      intro x hx
      rw [cursorSteps] at hx
      rcases List.mem_cons.mp hx with h1 | h1
      · rw [h1]; exact hbound
      · exact hmem x h1
  have h0 : cursorOf emptyJobIndexes "job" = 0 := rfl
  have hres := hgen chunks emptyJobIndexes (by rw [h0]; exact Nat.zero_le total)
  rw [h0] at hres
  refine ⟨?_, hres.1, hres.2⟩
  intro ji k t c
  rw [cursor_step]
  omega

/-- C10: every get_range request writes the cursor of the requested key
to min(previous cursor + chunkSize, totalCalls); the sentinel is
returned exactly when the stored cursor equals totalCalls, in which case
the write leaves the cursor unchanged; and a request whose totalCalls is
smaller than the stored cursor lowers the cursor to that totalCalls. -/
theorem get_range_write (ji : JobIndexes) (k : String) (total_calls chunksize : Nat) :
    cursorOf (get_range k total_calls chunksize ji).2 k =
      min (cursorOf ji k + chunksize) total_calls ∧
    ((get_range k total_calls chunksize ji).1 = RangeResp.sentinel ↔
      cursorOf ji k = total_calls) ∧
    (cursorOf ji k = total_calls →
      cursorOf (get_range k total_calls chunksize ji).2 k = cursorOf ji k) ∧
    (total_calls < cursorOf ji k →
      cursorOf (get_range k total_calls chunksize ji).2 k = total_calls) := by
  refine ⟨cursor_step ji k total_calls chunksize, ?_, ?_, ?_⟩
  · rw [get_range_resp]
    constructor
    · intro h
      by_contra hne
      rw [if_neg hne] at h
      cases h
    · intro h
      rw [if_pos h]
  · intro h
    rw [cursor_step, h]
    omega
  · intro h
    rw [cursor_step]
    omega

/-- Witness for get_range_write: a stored cursor of 5 for "j" and a
request with totalCalls = 3 lower the cursor to 3. -/
theorem get_range_write_witness :
    3 < cursorOf jiCursor5 "j" ∧ cursorOf (get_range "j" 3 1 jiCursor5).2 "j" = 3 :=
  ⟨by decide, (get_range_write jiCursor5 "j" 3 1).2.2.2 (by decide)⟩

theorem calc_exec_fst (num pc a b total : Nat) :
    (calculate_executions num pc (a, b) total).1 =
      pc * (total / num) +
        (if a ≤ total % num ∧ total % num ≤ b then total % num - a
         else if a < total % num then pc else 0) := by
  by_cases h1 : a ≤ total % num ∧ total % num ≤ b
  · simp [calculate_executions, h1]
  · by_cases h2 : a < total % num
    · simp [calculate_executions, h1, h2]
    · simp [calculate_executions, h1, h2]

theorem calc_exec_snd (num pc a b total : Nat) :
    (calculate_executions num pc (a, b) total).2 = total / num := by
  by_cases h1 : a ≤ total % num ∧ total % num ≤ b
  · simp [calculate_executions, h1]
  · by_cases h2 : a < total % num
    · simp [calculate_executions, h1, h2]
    · simp [calculate_executions, h1, h2]

theorem podExecsSum_eq (num total : Nat) :
    ∀ (sizes : List Nat) (a : Nat), (∀ s ∈ sizes, 0 < s) →
      podExecsSum num total a sizes =
        sizes.sum * (total / num) +
          (min (total % num) (a + sizes.sum) - min (total % num) a) := by
  intro sizes
  induction sizes with
  | nil =>
    intro a _
    simp [podExecsSum]
  | cons s rest ih =>
    intro a hpos
    have hs : 0 < s := hpos s (List.mem_cons_self s rest)
    have hrest : ∀ x ∈ rest, 0 < x := fun x hx => hpos x (List.mem_cons_of_mem s hx)
    rw [podExecsSum, ih (a + s) hrest, calc_exec_fst, List.sum_cons, Nat.add_mul]
    generalize total / num = B
    generalize total % num = R
    by_cases h1 : a ≤ R ∧ R ≤ a + s - 1
    · rw [if_pos h1]
      generalize s * B = p
      generalize rest.sum * B = q
      omega
    · rw [if_neg h1]
      by_cases h2 : a < R
      · rw [if_pos h2]
        generalize s * B = p
        generalize rest.sum * B = q
        omega
      · rw [if_neg h2]
        generalize s * B = p
        generalize rest.sum * B = q
        omega

/-- C2: when the pods' CPU ranges exactly partition the CPU indices
0 .. numCPUsCluster - 1 into contiguous inclusive ranges (the cluster is
described by the nonempty list of positive pod sizes, laid out end to
end, whose sizes sum to numCPUsCluster), the podExecutions components of
calculate_executions summed over all pods equal exactly totalCalls. -/
theorem partition_conservation (num_cpus_cluster total_functions : Nat)
    (sizes : List Nat) (hpos : ∀ s ∈ sizes, 0 < s)
    (hsum : sizes.sum = num_cpus_cluster) (hnum : 0 < num_cpus_cluster) :
    podExecsSum num_cpus_cluster total_functions 0 sizes = total_functions := by
  rw [podExecsSum_eq num_cpus_cluster total_functions sizes 0 hpos, hsum]
  have h1 : num_cpus_cluster * (total_functions / num_cpus_cluster) +
      total_functions % num_cpus_cluster = total_functions :=
    Nat.div_add_mod _ _
  have h2 : total_functions % num_cpus_cluster < num_cpus_cluster :=
    Nat.mod_lt _ hnum
  generalize hB : total_functions / num_cpus_cluster = B at h1 ⊢
  generalize hR : total_functions % num_cpus_cluster = R at h1 h2 ⊢
  generalize hq : num_cpus_cluster * B = q at h1 ⊢
  omega

/-- Witness for partition_conservation: a 5-CPU cluster of pods with CPU
ranges [0,1], [2,3], [4,4] and totalCalls = 12 distributes exactly
6 + 4 + 2 = 12 executions. -/
theorem partition_conservation_witness :
    (∀ s ∈ [2, 2, 1], 0 < s) ∧ List.sum [2, 2, 1] = 5 ∧ 0 < 5 ∧
    podExecsSum 5 12 0 [2, 2, 1] = 12 :=
  ⟨by decide, by decide, by decide,
    partition_conservation 5 12 [2, 2, 1] (by decide) (by decide) (by decide)⟩

/-- C3: calculate_executions returns podExecutions equal to
podCPUs * (totalCalls / numCPUsCluster) plus an extra of
remainder - podCPURange[0] when podCPURange[0] <= remainder <=
podCPURange[1], a full podCPUs when remainder > podCPURange[0] and the
pod is not the straddling pod, and zero otherwise, together with
baseExecutions = totalCalls / numCPUsCluster; in particular
numCPUsCluster = 5, totalCalls = 12, podCPUs = 2, podCPURange = [0,1]
yield baseExecutions = 2 and podExecutions = 6. -/
theorem calculate_executions_formula :
    (∀ num_cpus_cluster pod_cpus a b total_functions : Nat,
        (calculate_executions num_cpus_cluster pod_cpus (a, b) total_functions).1 =
          pod_cpus * (total_functions / num_cpus_cluster) +
            (if a ≤ total_functions % num_cpus_cluster ∧
                total_functions % num_cpus_cluster ≤ b
             then total_functions % num_cpus_cluster - a
             else if a < total_functions % num_cpus_cluster then pod_cpus else 0) ∧
        (calculate_executions num_cpus_cluster pod_cpus (a, b) total_functions).2 =
          total_functions / num_cpus_cluster) ∧
    calculate_executions 5 2 (0, 1) 12 = (6, 2) :=
  ⟨fun num pc a b total => ⟨calc_exec_fst num pc a b total, calc_exec_snd num pc a b total⟩,
    by decide⟩

/-- C6: for a pod whose CPU range is consistent with the cluster
(range_start <= range_end < num_cpus_cluster), a fanout message with
totalCalls > rangeStart makes the first wave launch exactly
min(requestedCPUs, podCPUs) processes, with requestedCPUs the pod's
range clipped to totalCalls; and a message with totalCalls <= rangeStart
makes the handler return early, launching no process at all. -/
theorem first_wave_min (num_cpus_cluster range_start range_end total_calls : Nat)
    (h1 : range_start ≤ range_end) (h2 : range_end < num_cpus_cluster) :
    (range_start < total_calls →
      callback_run_jobs_first_wave num_cpus_cluster range_start range_end total_calls =
        min (if total_calls - 1 < range_end then total_calls - range_start
             else range_end - range_start + 1)
            (range_end - range_start + 1)) ∧
    (total_calls ≤ range_start →
      callback_run_jobs_first_wave num_cpus_cluster range_start range_end total_calls = 0) := by
  constructor
  · intro hlt
    by_cases hcase : total_calls - 1 < range_end
    · have htc : total_calls ≤ range_end := by omega
      have htlt : total_calls < num_cpus_cluster := by omega
      have hdiv : total_calls / num_cpus_cluster = 0 := Nat.div_eq_of_lt htlt
      have hmod : total_calls % num_cpus_cluster = total_calls := Nat.mod_eq_of_lt htlt
      have hexec : (calculate_executions num_cpus_cluster (range_end - range_start + 1)
          (range_start, range_end) total_calls).1 = total_calls - range_start := by
        rw [calc_exec_fst, hdiv, hmod, if_pos ⟨Nat.le_of_lt hlt, htc⟩]
        omega
      simp [callback_run_jobs_first_wave, hlt, hcase, hexec]
      omega
    · simp [callback_run_jobs_first_wave, hlt, hcase]
  · intro hle
    simp [callback_run_jobs_first_wave, Nat.not_lt.mpr hle]

/-- Witness for first_wave_min: cluster of 5 CPUs, pod range [0,1],
totalCalls = 12: the first wave launches min(2, 2) = 2 processes. -/
theorem first_wave_min_witness :
    (0 : Nat) ≤ 1 ∧ 1 < 5 ∧
    ((0 < 12 →
      callback_run_jobs_first_wave 5 0 1 12 =
        min (if 12 - 1 < 1 then 12 - 0 else 1 - 0 + 1) (1 - 0 + 1)) ∧
    (12 ≤ 0 → callback_run_jobs_first_wave 5 0 1 12 = 0)) ∧
    callback_run_jobs_first_wave 5 0 1 12 = 2 :=
  ⟨by decide, by decide, first_wave_min 5 0 1 12 (by decide) (by decide), by decide⟩

/-- C7 counterexample: a message whose decoding fails (malformed JSON or
missing total_calls field, which the code runs before entering the try
block) makes the handler re-raise instead of suppressing the error, so
the claim that every exception during message handling is caught is
false. -/
theorem callback_raises_on_malformed :
    callback_decode_then_try (Except.error "malformed body") (fun _ => Except.ok ()) =
      Except.error "malformed body" ∧
    callback_decode_then_try (Except.error "malformed body") (fun _ => Except.ok ()) ≠
      Except.ok () :=
  ⟨rfl, fun h => nomatch h⟩

/-- C7 amended: once the message payload has been decoded (json.loads
and the total_calls read succeed), any exception raised by the
scheduling body inside the try block is caught and suppressed and the
handler returns normally; exceptions raised while decoding propagate. -/
theorem callback_try_suppresses (decode_payload : Except String Nat)
    (try_body : Nat → Except String Unit) (p : Nat)
    (h : decode_payload = Except.ok p) :
    callback_decode_then_try decode_payload try_body = Except.ok () := by
  subst h
  cases h2 : try_body p <;> simp [callback_decode_then_try, h2]

/-- Witness for callback_try_suppresses: a decoded message whose
scheduling body raises still makes the handler return normally. -/
theorem callback_try_suppresses_witness :
    (Except.ok 0 : Except String Nat) = Except.ok 0 ∧
    callback_decode_then_try (Except.ok 0) (fun _ => Except.error "boom") =
      Except.ok () :=
  ⟨rfl, callback_try_suppresses (Except.ok 0) (fun _ => Except.error "boom") 0 rfl⟩

/-- C9: for an empty futures argument, wait returns None (not a
(done, notDone) pair), whatever the other arguments are. -/
theorem wait_empty_returns_none (download_results : Bool) (return_when : Nat)
    (step : Nat → List Future → List Future) (fuel : Nat) :
    wait [] download_results return_when step fuel = some PyResult.noneVal ∧
    ∀ d nd, wait [] download_results return_when step fuel ≠
      some (PyResult.pair d nd) := by
  have h0 : wait [] download_results return_when step fuel = some PyResult.noneVal := by
    simp [wait]
  refine ⟨h0, ?_⟩
  intro d nd h
  rw [h0] at h
  simp at h

theorem fs_done_of_eq (fs : List Future) (download_results : Bool) :
    fs_done_of fs download_results =
      fs.filter (fun f => readiness download_results f) := by
  cases download_results <;> rfl

theorem fs_not_done_of_eq (fs : List Future) (download_results : Bool) :
    fs_not_done_of fs download_results =
      fs.filter (fun f => !readiness download_results f) := by
  cases download_results <;> rfl

theorem fs_notdone_final_eq (fs : List Future) (download_results : Bool) :
    fs_notdone_final fs download_results =
      fs.filter (fun f => !readiness download_results f) := by
  cases download_results
  · show fs.filter (fun f => !f.ready && !f.done) = _
    apply List.filter_congr
    intro f _
    simp [readiness, Bool.not_or]
  · rfl

/-- C5: whenever wait terminates normally on a non-empty futures list
and returns a (done, notDone) pair, that pair is the partition of the
final tracked futures list by the readiness predicate (done when
downloadResults, ready OR done otherwise).  The final tracked list is
pinned to the one wait actually used: the input list itself when the
pre-loop partition found nothing pending, and otherwise exactly the
list produced by the polling phase (runPolicy).  Every future of the
first component satisfies the predicate, every future of the second
does not, and the two components together are a permutation of that
tracked list, so nothing tracked is dropped or duplicated. -/
theorem wait_final_partition (fs : List Future) (download_results : Bool)
    (return_when : Nat) (step : Nat → List Future → List Future) (fuel : Nat)
    (d nd : List Future) (hne : fs ≠ [])
    (h : wait fs download_results return_when step fuel = some (PyResult.pair d nd)) :
    ∃ finalFs : List Future,
      (if fs_not_done_of fs download_results = [] then finalFs = fs
       else runPolicy fs download_results return_when step fuel = some finalFs) ∧
      d = finalFs.filter (fun f => readiness download_results f) ∧
      nd = finalFs.filter (fun f => !readiness download_results f) ∧
      (∀ f ∈ d, readiness download_results f = true) ∧
      (∀ f ∈ nd, readiness download_results f = false) ∧
      (d ++ nd).Perm finalFs := by
  have hmk : ∀ fs2 : List Future,
      (if fs_not_done_of fs download_results = [] then fs2 = fs
       else runPolicy fs download_results return_when step fuel = some fs2) →
      d = fs2.filter (fun f => readiness download_results f) →
      nd = fs2.filter (fun f => !readiness download_results f) →
      ∃ finalFs : List Future,
        (if fs_not_done_of fs download_results = [] then finalFs = fs
         else runPolicy fs download_results return_when step fuel = some finalFs) ∧
        d = finalFs.filter (fun f => readiness download_results f) ∧
        nd = finalFs.filter (fun f => !readiness download_results f) ∧
        (∀ f ∈ d, readiness download_results f = true) ∧
        (∀ f ∈ nd, readiness download_results f = false) ∧
        (d ++ nd).Perm finalFs := by
    intro fs2 hpin h1 h2
    refine ⟨fs2, hpin, h1, h2, ?_, ?_, ?_⟩
    · intro f hf
      rw [h1] at hf
      exact (List.mem_filter.mp hf).2
    · intro f hf
      rw [h2] at hf
      have := (List.mem_filter.mp hf).2
      simpa using this
    · rw [h1, h2]
      exact List.filter_append_perm _ fs2
  unfold wait at h
  rw [if_neg hne] at h
  by_cases hearly : fs_not_done_of fs download_results = []
  · rw [if_pos hearly] at h
    simp only [Option.some.injEq, PyResult.pair.injEq] at h
    obtain ⟨h1, h2⟩ := h
    exact hmk fs (by rw [if_pos hearly])
      (by rw [← h1, fs_done_of_eq]) (by rw [← h2, fs_not_done_of_eq])
  · rw [if_neg hearly] at h
    obtain ⟨fs2, hrp⟩ : ∃ fs2, runPolicy fs download_results return_when step fuel =
        some fs2 := by
      cases hwp : runPolicy fs download_results return_when step fuel with
      | none => rw [hwp] at h; simp at h
      | some fs2 => exact ⟨fs2, rfl⟩
    rw [hrp] at h
    simp only [Option.some.injEq, PyResult.pair.injEq] at h
    obtain ⟨h1, h2⟩ := h
    exact hmk fs2 (by rw [if_neg hearly]; exact hrp)
      (by rw [← h1, fs_done_of_eq]) (by rw [← h2, fs_notdone_final_eq])

/-- Witness for wait_final_partition: a single already-done future under
downloadResults returns the pair of the done list and the empty notDone
list, which partitions the tracked list (here pinned to the input list
by the early-return branch). -/
theorem wait_final_partition_witness :
    ([Future.mk true true] ≠ ([] : List Future)) ∧
    ∃ finalFs : List Future,
      (if fs_not_done_of [Future.mk true true] true = [] then
        finalFs = [Future.mk true true]
       else runPolicy [Future.mk true true] true ALL_COMPLETED
         (fun _ l => l) 0 = some finalFs) ∧
      [Future.mk true true] = finalFs.filter (fun f => readiness true f) ∧
      ([] : List Future) = finalFs.filter (fun f => !readiness true f) ∧
      (∀ f ∈ [Future.mk true true], readiness true f = true) ∧
      (∀ f ∈ ([] : List Future), readiness true f = false) ∧
      ([Future.mk true true] ++ ([] : List Future)).Perm finalFs :=
  ⟨by decide,
    wait_final_partition [Future.mk true true] true ALL_COMPLETED
      (fun _ l => l) 0 [Future.mk true true] [] (by decide) rfl⟩
